import Mathlib

/-!
Verification of the employee-attrition dashboard (src/app.py) against its
design specification.  The dashboard's core is a filter-and-aggregate
pipeline: a pandas DataFrame is filtered by sidebar controls (gender,
department, age range) and a fixed battery of aggregations feeds the charts.

This file shallowly embeds that pipeline:
  * a Table is a `List Record` (ordered sequence of records, §3 of the spec);
  * the sidebar state is a `FilterSpec`;
  * `applyFilter` embeds the filter chain of src/app.py lines 29-34;
  * the aggregation calls (value_counts, groupby value_counts, corr,
    histogram binning, box-plot statistics) are embedded further below;
  * the 20-view render pass with its OverTime guard (lines 40-140) is
    embedded as `runCatalog`.
Numeric cells are modelled as exact rationals (the CSV holds integers; the
embedding idealises float arithmetic as exact arithmetic, which is faithful
for the counting and guard logic the claims are about).
-/

/-- An employee record, restricted to the columns that the Filter Engine of
src/app.py lines 29-34 inspects: `Gender`, `Department` (categorical strings)
and `Age` (integer).  Aggregations over other columns are stated generically
over a column-extraction function, so the remaining columns need not be
enumerated here. -/
structure Record where
  gender : String
  department : String
  age : Int
deriving DecidableEq, Repr, Inhabited

/-- The sidebar filter state of src/app.py lines 24-26: a gender selection,
a department selection (both drawn from `["All"] + unique values`, with the
literal string `"All"` as the no-constraint sentinel, exactly as in the
source) and an inclusive age range from the slider. -/
structure FilterSpec where
  gender : String
  department : String
  ageLo : Int
  ageHi : Int
deriving DecidableEq, Repr

/-- Embedding of the filter chain of src/app.py lines 29-34:

  filtered_df = df.copy()
  if selected_gender != "All":
      filtered_df = filtered_df[filtered_df["Gender"] == selected_gender]
  if selected_department != "All":
      filtered_df = filtered_df[filtered_df["Department"] == selected_department]
  filtered_df = filtered_df[(filtered_df["Age"] >= lo) & (filtered_df["Age"] <= hi)]

Boolean-mask selection on a DataFrame keeps the matching rows in their
original order, which is `List.filter`.  The three stages are the three
statements of the source, applied in the same order. -/
def filterGender (s : FilterSpec) (df : List Record) : List Record :=
  if s.gender ≠ "All" then df.filter (fun r => r.gender == s.gender) else df

/-- Second stage of the filter chain (src/app.py lines 32-33). -/
def filterDepartment (s : FilterSpec) (df : List Record) : List Record :=
  if s.department ≠ "All" then df.filter (fun r => r.department == s.department) else df

/-- Third stage (src/app.py line 34) composed after the two categorical
stages: the full filter chain of lines 29-34. -/
def applyFilter (df : List Record) (s : FilterSpec) : List Record :=
  (filterDepartment s (filterGender s df)).filter
    (fun r => decide (s.ageLo ≤ r.age) && decide (r.age ≤ s.ageHi))

/-- Embedding of `int(df.Age.min())` (src/app.py line 26), the lower bound of
the age slider.  pandas `min` over a non-empty integer column is the least
element; the defaulting head/tail split mirrors that the source only
evaluates this on the non-empty loaded dataset. -/
def ageMin : List Record → Int
  | [] => 0
  | r :: rs => (rs.map (fun x => x.age)).foldl min r.age

/-- Embedding of `int(df.Age.max())` (src/app.py line 26), the upper bound of
the age slider. -/
def ageMax : List Record → Int
  | [] => 0
  | r :: rs => (rs.map (fun x => x.age)).foldl max r.age

/-- A record that collides with the sentinel: its Gender literally is
the string "All" that src/app.py line 24 prepends as the no-constraint
option. -/
def rAll : Record := Record.mk "All" "Sales" 30

/-- A record distinguishable from `rAll` only by its Gender. -/
def rMale : Record := Record.mk "Male" "Sales" 30

/-- A two-record table on which the gender-"All" subset is not expressible:
both records share Department and Age, so only the gender selection could
separate them, and the sentinel makes that impossible. -/
def dfCollide : List Record := [rAll, rMale]

/-- Embedding of pandas `Series.value_counts()` as used on
`filtered_df["Attrition"]` (src/app.py lines 43 and 47): one entry per
distinct value of the column with its number of occurrences.  pandas orders
the entries by descending count; the spec (§4.3) declares key order
irrelevant, and every property claimed is order-independent, so the
embedding lists keys in first-occurrence order. -/
def valueCounts {α : Type} [DecidableEq α] (xs : List α) : List (α × Nat) :=
  xs.dedup.map (fun v => (v, xs.count v))

/-- Embedding of `filtered_df.groupby(g)[c].value_counts()` (src/app.py
lines 62 and 66): for each distinct group value, the value counts of the
inner column restricted to that group's records. -/
def groupedValueCounts {α β : Type} [DecidableEq α] [DecidableEq β]
    (pairs : List (α × β)) : List (α × List (β × Nat)) :=
  (pairs.map Prod.fst).dedup.map
    (fun g => (g, valueCounts ((pairs.filter (fun p => decide (p.1 = g))).map Prod.snd)))

/-- Dot product of two columns, the sum of pairwise products that the
Pearson formula needs. -/
def dot (xs ys : List ℚ) : ℚ :=
  ((xs.zip ys).map (fun p => p.1 * p.2)).sum

/-- The scaled covariance sum n·Σxy − Σx·Σy of the Pearson formula
(n² times the covariance of the two columns). -/
def sxy (xs ys : List ℚ) : ℚ :=
  (xs.length : ℚ) * dot xs ys - xs.sum * ys.sum

/-- The scaled variance sum n·Σx² − (Σx)² (n² times the variance);
zero exactly on constant columns. -/
def sxx (xs : List ℚ) : ℚ :=
  sxy xs xs

/-- One cell of the correlation matrix as pandas produces it: either the
float NaN (what `DataFrame.corr()` yields when the view has fewer than two
rows or a column has zero variance, since the Pearson denominator is then
zero) or a defined Pearson value.  The defined value Sxy/√(Sxx·Syy) is
irrational in general, so the cell carries the three exact sums and
`CorrVal.real` interprets them as the real coefficient. -/
inductive CorrVal where
  | nan : CorrVal
  | val (sab sa sb : ℚ) : CorrVal
deriving DecidableEq, Repr

/-- The real number a cell of the matrix denotes: `none` for NaN, and the
Pearson quotient Sxy/√(Sxx·Syy) for a defined cell. -/
noncomputable def CorrVal.real : CorrVal → Option ℝ
  | CorrVal.nan => none
  | CorrVal.val a b c => some ((a : ℝ) / Real.sqrt ((b : ℝ) * (c : ℝ)))

/-- Embedding of one entry of `filtered_df.select_dtypes(include='number').corr()`
(src/app.py line 53): pandas computes the pairwise Pearson coefficient and
yields NaN when fewer than two observations are available or a column is
constant (zero variance makes the denominator zero). -/
def corrEntry (xs ys : List ℚ) : CorrVal :=
  if xs.length < 2 ∨ ys.length < 2 ∨ sxx xs = 0 ∨ sxx ys = 0 then CorrVal.nan
  else CorrVal.val (sxy xs ys) (sxx xs) (sxx ys)

/-- Embedding of the full correlation matrix of src/app.py line 53 over the
numeric columns of the filtered view, one `corrEntry` per ordered column
pair.  Columns are given as extraction functions, since the numeric schema
of the CSV is data (the source selects them with `select_dtypes`). -/
def corrMatrix {ρ : Type} (rows : List ρ) (cols : List (ρ → ℚ)) : List (List CorrVal) :=
  cols.map (fun c1 => cols.map (fun c2 => corrEntry (rows.map c1) (rows.map c2)))

/-- The numeric Age column of a record, as `select_dtypes(include='number')`
exposes it to the correlation heatmap. -/
def ageColumn : Record → ℚ := fun r => (r.age : ℚ)

/-- Minimum of a rational column (pandas `min` over a non-empty column);
0 only as the out-of-domain default for the empty list. -/
def listMinQ : List ℚ → ℚ
  | [] => 0
  | x :: rest => rest.foldl min x

/-- Maximum of a rational column. -/
def listMaxQ : List ℚ → ℚ
  | [] => 0
  | x :: rest => rest.foldl max x

/-- Grouped descriptive statistics, §4.3 of the spec.  Modelled from the
spec: the box-plot quartile computation behind `px.box` (src/app.py lines
77-121) lives in the plotting library, not in this repository, so the
statistic set is taken from the spec's words: minimum, maximum, mean, and
the 25th/50th/75th percentiles by linear interpolation between ranks. -/
structure StatSet where
  smin : ℚ
  smax : ℚ
  mean : ℚ
  q1 : ℚ
  median : ℚ
  q3 : ℚ
deriving DecidableEq, Repr

/-- Insertion into a sorted list, for the percentile rank order. -/
def insertSorted (x : ℚ) : List ℚ → List ℚ
  | [] => [x]
  | y :: ys => if x ≤ y then x :: y :: ys else y :: insertSorted x ys

/-- Insertion sort of a rational column. -/
def sortQ (xs : List ℚ) : List ℚ :=
  xs.foldr insertSorted []

/-- Modelled from the spec (§4.3 `groupedStats`): the p-th percentile of a
non-empty column by the standard linear-interpolation rule — for n sorted
values the rank is p·(n−1), interpolated between the two bracketing ranks. -/
def percentile (xs : List ℚ) (p : ℚ) : ℚ :=
  let s := sortQ xs
  let h := p * ((s.length : ℚ) - 1)
  let f := (⌊h⌋).toNat
  let a := s.getD f 0
  let b := s.getD (min (f + 1) (s.length - 1)) 0
  a + (h - (f : ℚ)) * (b - a)

/-- The statistic set of one group, from the spec's words (§4.3). -/
def statSet (xs : List ℚ) : StatSet :=
  { smin := listMinQ xs, smax := listMaxQ xs,
    mean := xs.sum / (xs.length : ℚ),
    q1 := percentile xs (1/4), median := percentile xs (1/2),
    q3 := percentile xs (3/4) }

/-- Modelled from the spec (§4.3 `groupedStats`): for each distinct group
value, the statistic set of the value column restricted to that group.  The
deciding quartile code is in the plotting library, not under src/. -/
def groupedStats {α : Type} [DecidableEq α] (pairs : List (α × ℚ)) : List (α × StatSet) :=
  (pairs.map Prod.fst).dedup.map
    (fun g => (g, statSet ((pairs.filter (fun p => decide (p.1 = g))).map Prod.snd)))

/-- Width of one histogram bin: the observed range divided into `binCount`
equal parts. -/
def binWidth (xs : List ℚ) (binCount : Nat) : ℚ :=
  (listMaxQ xs - listMinQ xs) / (binCount : ℚ)

/-- The bin a value falls into: its offset from the minimum divided by the
bin width, with the top edge clamped into the last bin (which is why the
last bin alone is right-inclusive). -/
def binIndex (lo w : ℚ) (binCount : Nat) (x : ℚ) : Nat :=
  min ((⌊(x - lo) / w⌋).toNat) (binCount - 1)

/-- Modelled from the spec (§4.3 `histogramBins`): the histogram behind
`px.histogram(filtered_df, x="Age", nbins=20)` (src/app.py line 70) is
binned inside the plotting library, not in this repository, so the binning
is taken from the spec's words — the observed min-max range split into
`binCount` equal-width bins, right-edge exclusive except the last bin,
counts per bin in ascending bin order, and a single bin when the range is
zero. -/
def histogramBins (xs : List ℚ) (binCount : Nat) : List (ℚ × ℚ × Nat) :=
  if xs = [] then []
  else if listMinQ xs = listMaxQ xs then [(listMinQ xs, listMaxQ xs, xs.length)]
  else
    (List.range binCount).map (fun (i : Nat) =>
      (listMinQ xs + (i : ℚ) * binWidth xs binCount,
       listMinQ xs + ((i : ℚ) + 1) * binWidth xs binCount,
       (xs.filter
         (fun v => binIndex (listMinQ xs) (binWidth xs binCount) binCount v == i)).length))

/-- Outcome of rendering one of the 20 catalog views: either a chart built
from the listed required columns, or the warning banner of src/app.py
line 140. -/
inductive ViewOutcome where
  | chart (requiredCols : List String) : ViewOutcome
  | warn (msg : String) : ViewOutcome
deriving DecidableEq, Repr

/-- The columns each of views 1-19 of src/app.py (lines 40-133) reads from
the filtered frame, in catalog order.  View 3 (the correlation heatmap)
selects numeric columns dynamically and requires none by name. -/
def viewRequires : List (List String) :=
  [["Attrition"], ["Attrition"], [],
   ["Gender", "Attrition"], ["MaritalStatus", "Attrition"], ["Age", "Attrition"],
   ["Attrition", "JobSatisfaction"], ["Attrition", "EnvironmentSatisfaction"],
   ["Attrition", "WorkLifeBalance"],
   ["JobRole", "Attrition"], ["Attrition", "DistanceFromHome"],
   ["Attrition", "MonthlyIncome"], ["Attrition", "YearsAtCompany"],
   ["BusinessTravel", "Attrition"],
   ["PerformanceRating", "Attrition"], ["Attrition", "YearsSinceLastPromotion"],
   ["Attrition", "YearsWithCurrManager"],
   ["EducationField", "Attrition"], ["Education", "Attrition"]]

/-- Column access on a DataFrame: pandas raises KeyError on the first
missing column, which aborts the Streamlit script run; success is a no-op. -/
def requireCols (schema req : List String) : Except String Unit :=
  match req.find? (fun c => !(schema.contains c)) with
  | some c => Except.error c
  | none => Except.ok ()

/-- Embedding of the sequential render pass over the 20 views (src/app.py
lines 40-140): views 1-19 access their columns unguarded — a missing column
raises and aborts the whole pass — while view 20 alone is guarded by
`if "OverTime" in filtered_df.columns` (line 136) and degrades to the
warning of line 140 when the column is absent. -/
def runCatalog (schema : List String) : Except String (List ViewOutcome) := do
  let charts ← viewRequires.mapM (fun req => do
    requireCols schema req
    pure (ViewOutcome.chart req))
  if schema.contains "OverTime" then do
    requireCols schema ["OverTime", "Attrition"]
    pure (charts ++ [ViewOutcome.chart ["OverTime", "Attrition"]])
  else
    pure (charts ++ [ViewOutcome.warn "OverTime column not found in dataset."])

/-- The full expected input schema (§6 of the spec). -/
def fullSchema : List String :=
  ["Attrition", "Gender", "Department", "Age", "MaritalStatus", "JobSatisfaction",
   "EnvironmentSatisfaction", "WorkLifeBalance", "JobRole", "DistanceFromHome",
   "MonthlyIncome", "YearsAtCompany", "BusinessTravel", "PerformanceRating",
   "YearsSinceLastPromotion", "YearsWithCurrManager", "EducationField",
   "Education", "OverTime"]

/-- A record whose Age differs from the others, giving the Age column
nonzero variance on views containing it. -/
def r40 : Record := Record.mk "Female" "HR" 40

lemma foldl_min_le_self {α : Type} [LinearOrder α] (l : List α) (a : α) :
    l.foldl min a ≤ a := by
  induction l generalizing a with
  | nil => exact le_refl a
  | cons x xs ih =>
      calc (x :: xs).foldl min a = xs.foldl min (min a x) := rfl
        _ ≤ min a x := ih (min a x)
        _ ≤ a := min_le_left a x

lemma foldl_min_le_mem {α : Type} [LinearOrder α] (l : List α) (a x : α) (hx : x ∈ l) :
    l.foldl min a ≤ x := by
  induction l generalizing a with
  | nil => cases hx
  | cons y ys ih =>
      rcases List.mem_cons.mp hx with h | h
      · subst h
        calc (x :: ys).foldl min a = ys.foldl min (min a x) := rfl
          _ ≤ min a x := foldl_min_le_self ys (min a x)
          _ ≤ x := min_le_right a x
      · exact ih (min a y) h

lemma le_foldl_max_self {α : Type} [LinearOrder α] (l : List α) (a : α) :
    a ≤ l.foldl max a := by
  induction l generalizing a with
  | nil => exact le_refl a
  | cons x xs ih =>
      calc a ≤ max a x := le_max_left a x
        _ ≤ xs.foldl max (max a x) := ih (max a x)
        _ = (x :: xs).foldl max a := rfl

lemma le_foldl_max_mem {α : Type} [LinearOrder α] (l : List α) (a x : α) (hx : x ∈ l) :
    x ≤ l.foldl max a := by
  induction l generalizing a with
  | nil => cases hx
  | cons y ys ih =>
      rcases List.mem_cons.mp hx with h | h
      · subst h
        calc x ≤ max a x := le_max_right a x
          _ ≤ ys.foldl max (max a x) := le_foldl_max_self ys (max a x)
          _ = (x :: ys).foldl max a := rfl
      · exact ih (max a y) h

lemma ageMin_le (df : List Record) (r : Record) (hr : r ∈ df) :
    ageMin df ≤ r.age := by
  cases df with
  | nil => cases hr
  | cons x xs =>
      rcases List.mem_cons.mp hr with h | h
      · subst h
        exact foldl_min_le_self _ _
      · exact foldl_min_le_mem _ _ _ (List.mem_map.mpr ⟨r, h, rfl⟩)

lemma le_ageMax (df : List Record) (r : Record) (hr : r ∈ df) :
    r.age ≤ ageMax df := by
  cases df with
  | nil => cases hr
  | cons x xs =>
      rcases List.mem_cons.mp hr with h | h
      · subst h
        exact le_foldl_max_self _ _
      · exact le_foldl_max_mem _ _ _ (List.mem_map.mpr ⟨r, h, rfl⟩)

lemma mem_filterGender (s : FilterSpec) (df : List Record) (r : Record) :
    r ∈ filterGender s df ↔ r ∈ df ∧ (s.gender = "All" ∨ r.gender = s.gender) := by
  unfold filterGender
  by_cases hg : s.gender = "All" <;> simp [hg, List.mem_filter]

lemma mem_filterDepartment (s : FilterSpec) (df : List Record) (r : Record) :
    r ∈ filterDepartment s df ↔
      r ∈ df ∧ (s.department = "All" ∨ r.department = s.department) := by
  unfold filterDepartment
  by_cases hd : s.department = "All" <;> simp [hd, List.mem_filter]

/-- Membership characterisation of the filter chain: a record is kept iff it
is in the source table and passes every active constraint. -/
lemma mem_applyFilter (df : List Record) (s : FilterSpec) (r : Record) :
    r ∈ applyFilter df s ↔
      r ∈ df ∧ (s.gender = "All" ∨ r.gender = s.gender) ∧
        (s.department = "All" ∨ r.department = s.department) ∧
        (s.ageLo ≤ r.age ∧ r.age ≤ s.ageHi) := by
  unfold applyFilter
  simp [List.mem_filter, mem_filterDepartment, mem_filterGender]
  tauto

lemma filterGender_sublist (s : FilterSpec) (df : List Record) :
    List.Sublist (filterGender s df) df := by
  unfold filterGender
  split
  · exact List.filter_sublist df
  · exact List.Sublist.refl df

lemma filterDepartment_sublist (s : FilterSpec) (df : List Record) :
    List.Sublist (filterDepartment s df) df := by
  unfold filterDepartment
  split
  · exact List.filter_sublist df
  · exact List.Sublist.refl df

lemma applyFilter_sublist (df : List Record) (s : FilterSpec) :
    List.Sublist (applyFilter df s) df :=
  ((List.filter_sublist _).trans (filterDepartment_sublist s _)).trans
    (filterGender_sublist s df)

/-- C1.  Soundness and completeness of the filter chain of src/app.py lines
29-34: a record is in `applyFilter df s` iff it is a record of `df` that
satisfies every active constraint — the gender equality when the gender
selection is not the sentinel "All", the department equality when that
selection is not "All", and the inclusive age range; the constraints
compose by logical AND. -/
theorem claim_C1_filter_sound_complete (df : List Record) (s : FilterSpec) (r : Record) :
    r ∈ applyFilter df s ↔
      r ∈ df ∧ (s.gender = "All" ∨ r.gender = s.gender) ∧
        (s.department = "All" ∨ r.department = s.department) ∧
        (s.ageLo ≤ r.age ∧ r.age ≤ s.ageHi) :=
  mem_applyFilter df s r

/-- Witness for C1 at a concrete table and filter specification. -/
theorem claim_C1_filter_sound_complete_witness :
    rMale ∈ applyFilter [rMale] (FilterSpec.mk "Male" "All" 25 45) :=
  (claim_C1_filter_sound_complete [rMale] (FilterSpec.mk "Male" "All" 25 45) rMale).mpr
    (by decide)

/-- C2.  Applying a filter specification whose two categorical selections are
the sentinel "All" and whose age range is the dataset minimum to the dataset
maximum of Age (the bounds the slider of src/app.py line 26 offers) returns
the full table, identical in content and order. -/
theorem claim_C2_full_range_identity (df : List Record) (_hne : df ≠ []) :
    applyFilter df (FilterSpec.mk "All" "All" (ageMin df) (ageMax df)) = df := by
  unfold applyFilter filterDepartment filterGender
  simp only [ne_eq, not_true_eq_false, if_false, reduceIte]
  exact List.filter_eq_self.mpr
    (fun r hr => by simp [ageMin_le df r hr, le_ageMax df r hr])

/-- Witness for C2 on a concrete two-record table. -/
theorem claim_C2_full_range_identity_witness :
    ([rMale, rAll] ≠ ([] : List Record)) ∧
      applyFilter [rMale, rAll]
        (FilterSpec.mk "All" "All" (ageMin [rMale, rAll]) (ageMax [rMale, rAll])) =
        [rMale, rAll] :=
  ⟨by decide, claim_C2_full_range_identity [rMale, rAll] (by decide)⟩

/-- C9.  Frame and determinism contract of the filter: `applyFilter` is a
pure function in the embedding (the source filters `df.copy()`, line 29, so
the loaded table is never mutated); its result is an order-preserving
subsequence of the untouched source table, and two calls on equal inputs
return equal views. -/
theorem claim_C9_filter_pure (df : List Record) (s : FilterSpec) :
    List.Sublist (applyFilter df s) df ∧
      (∀ (df2 : List Record) (s2 : FilterSpec), df = df2 → s = s2 →
        applyFilter df s = applyFilter df2 s2) :=
  ⟨applyFilter_sublist df s, fun _ _ hdf hs => by rw [hdf, hs]⟩

/-- Witness for C9 at a concrete table and specification. -/
theorem claim_C9_filter_pure_witness :
    applyFilter dfCollide (FilterSpec.mk "Male" "All" 25 45) =
      applyFilter dfCollide (FilterSpec.mk "Male" "All" 25 45) :=
  (claim_C9_filter_pure dfCollide (FilterSpec.mk "Male" "All" 25 45)).2
    dfCollide (FilterSpec.mk "Male" "All" 25 45) rfl rfl

/-- Counterexample to C10 as stated.  C10 quantifies over every table
containing a record whose Gender is the literal "All" and asserts the set of
records with that value is never obtainable as a filtered view.  On the
one-record table `[rAll]` that set is the whole table, and selecting
gender "All", department "All" and the full age range returns exactly it. -/
theorem claim_C10_counterexample :
    rAll.gender = "All" ∧
      applyFilter [rAll] (FilterSpec.mk "All" "All" 30 30) = [rAll] ∧
      [rAll].filter (fun r => r.gender == "All") = [rAll] := by
  decide

/-- C10 as amended.  Selecting "All" disables the gender constraint instead
of matching the category: the filtered view is computed without inspecting
Gender at all (first conjunct).  Consequently, on a table where a gender-"All"
record and a differently-gendered record agree on Department and Age
(`dfCollide`), every filter specification that retains the "All"-gendered
record also retains the other one, so the set of records whose Gender is
exactly "All" is not obtainable as a filtered view by any gender/department
selection (second conjunct). -/
theorem claim_C10_sentinel_collision :
    (∀ (df : List Record) (d : String) (lo hi : Int),
        applyFilter df (FilterSpec.mk "All" d lo hi) =
          (filterDepartment (FilterSpec.mk "All" d lo hi) df).filter
            (fun r => decide (lo ≤ r.age) && decide (r.age ≤ hi))) ∧
      (∀ s : FilterSpec, rAll ∈ applyFilter dfCollide s →
        rMale ∈ applyFilter dfCollide s) := by
  constructor
  · intro df d lo hi
    unfold applyFilter filterGender
    simp
  · intro s h
    rcases (mem_applyFilter dfCollide s rAll).mp h with ⟨_, hg, hd, ha⟩
    refine (mem_applyFilter dfCollide s rMale).mpr ⟨by decide, ?_, ?_, ha⟩
    · rcases hg with h1 | h1
      · exact Or.inl h1
      · exact Or.inl h1.symm
    · rcases hd with h1 | h1
      · exact Or.inl h1
      · exact Or.inr h1

/-- Witness for the amended C10: with the all-sentinel specification the
"All"-gendered record is retained, and the theorem then forces the male
record to be retained as well. -/
theorem claim_C10_sentinel_collision_witness :
    rAll ∈ applyFilter dfCollide (FilterSpec.mk "All" "All" 25 45) ∧
      rMale ∈ applyFilter dfCollide (FilterSpec.mk "All" "All" 25 45) :=
  ⟨by decide, claim_C10_sentinel_collision.2 (FilterSpec.mk "All" "All" 25 45) (by decide)⟩

lemma dot_comm (xs ys : List ℚ) : dot xs ys = dot ys xs := by
  induction xs generalizing ys with
  | nil => cases ys <;> simp [dot]
  | cons a l ih =>
      cases ys with
      | nil => simp [dot]
      | cons b m =>
          have h := ih m
          simp only [dot, List.zip_cons_cons, List.map_cons, List.sum_cons] at h ⊢
          rw [h, mul_comm]

lemma dot_self_cons (a : ℚ) (l : List ℚ) : dot (a :: l) (a :: l) = a * a + dot l l := by
  simp [dot, List.zip_cons_cons]

lemma sq_sum_le_len_dot (xs : List ℚ) :
    xs.sum * xs.sum ≤ (xs.length : ℚ) * dot xs xs := by
  induction xs with
  | nil => simp [dot]
  | cons a l ih =>
      rw [dot_self_cons, List.sum_cons, List.length_cons]
      push_cast
      rcases Nat.eq_zero_or_pos l.length with h0 | hpos
      · have hl : l = [] := List.length_eq_zero.mp h0
        subst hl
        simp [dot]
      · have hnpos : (0 : ℚ) < (l.length : ℚ) := by exact_mod_cast hpos
        have hsq : 0 ≤ ((l.length : ℚ) * a - l.sum) * ((l.length : ℚ) * a - l.sum) :=
          mul_self_nonneg _
        have h2 : 0 ≤ (l.length : ℚ) * dot l l - l.sum * l.sum := sub_nonneg.mpr ih
        have key : (l.length : ℚ) *
              (((l.length : ℚ) + 1) * (a * a + dot l l) - (a + l.sum) * (a + l.sum)) =
            ((l.length : ℚ) * a - l.sum) * ((l.length : ℚ) * a - l.sum) +
              ((l.length : ℚ) + 1) * ((l.length : ℚ) * dot l l - l.sum * l.sum) := by
          ring
        have h3 : 0 ≤ (l.length : ℚ) *
            (((l.length : ℚ) + 1) * (a * a + dot l l) - (a + l.sum) * (a + l.sum)) := by
          rw [key]
          have := mul_nonneg (by linarith : (0:ℚ) ≤ (l.length : ℚ) + 1) h2
          linarith
        nlinarith [h3, hnpos]

lemma sxx_nonneg (xs : List ℚ) : 0 ≤ sxx xs := by
  have h := sq_sum_le_len_dot xs
  unfold sxx sxy
  linarith

lemma sum_const_list (xs : List ℚ) (q : ℚ) (h : ∀ x ∈ xs, x = q) :
    xs.sum = (xs.length : ℚ) * q := by
  induction xs with
  | nil => simp
  | cons a l ih =>
      have ha := h a (List.mem_cons_self a l)
      have hl := ih (fun x hx => h x (List.mem_cons_of_mem a hx))
      rw [List.sum_cons, hl, ha, List.length_cons]
      push_cast
      ring

lemma dot_self_const (xs : List ℚ) (q : ℚ) (h : ∀ x ∈ xs, x = q) :
    dot xs xs = (xs.length : ℚ) * (q * q) := by
  induction xs with
  | nil => simp [dot]
  | cons a l ih =>
      have ha := h a (List.mem_cons_self a l)
      have hl := ih (fun x hx => h x (List.mem_cons_of_mem a hx))
      rw [dot_self_cons, hl, ha, List.length_cons]
      push_cast
      ring

/-- A constant column has zero variance sum: this is the "zero variance"
degenerate case of the Pearson formula. -/
lemma sxx_const (xs : List ℚ) (q : ℚ) (h : ∀ x ∈ xs, x = q) : sxx xs = 0 := by
  unfold sxx sxy
  rw [dot_self_const xs q h, sum_const_list xs q h]
  ring

lemma sxy_comm (xs ys : List ℚ) (hlen : xs.length = ys.length) :
    sxy xs ys = sxy ys xs := by
  unfold sxy
  rw [dot_comm, hlen, mul_comm (xs.sum)]

lemma corrEntry_nan_of (xs ys : List ℚ)
    (h : xs.length < 2 ∨ ys.length < 2 ∨ sxx xs = 0 ∨ sxx ys = 0) :
    corrEntry xs ys = CorrVal.nan := by
  unfold corrEntry
  exact if_pos h

lemma corrEntry_symm_real (xs ys : List ℚ) (hlen : xs.length = ys.length) :
    (corrEntry xs ys).real = (corrEntry ys xs).real := by
  unfold corrEntry
  by_cases h : xs.length < 2 ∨ ys.length < 2 ∨ sxx xs = 0 ∨ sxx ys = 0
  · rw [if_pos h, if_pos (by tauto)]
  · rw [if_neg h, if_neg (by tauto)]
    rw [sxy_comm xs ys hlen]
    simp [CorrVal.real, mul_comm]

lemma corrEntry_self_real (xs : List ℚ) (h2 : 2 ≤ xs.length) (hv : sxx xs ≠ 0) :
    (corrEntry xs xs).real = some 1 := by
  have hpos : 0 < sxx xs := lt_of_le_of_ne (sxx_nonneg xs) (Ne.symm hv)
  have hguard : ¬(xs.length < 2 ∨ xs.length < 2 ∨ sxx xs = 0 ∨ sxx xs = 0) := by
    push_neg
    exact ⟨by omega, by omega, hv, hv⟩
  unfold corrEntry
  rw [if_neg hguard]
  have hself : sxy xs xs = sxx xs := rfl
  have hcast : (0 : ℝ) < ((sxx xs : ℚ) : ℝ) := by exact_mod_cast hpos
  simp only [CorrVal.real]
  rw [hself, Real.sqrt_mul_self hcast.le, div_self hcast.ne']

/-- C5.  For every filtered view and every column, the value counts of
src/app.py line 43 sum to the number of records in the view, and every key
of the mapping is a value that actually occurs in the view (absent
categories are not zero-filled). -/
theorem claim_C5_value_counts {α : Type} [DecidableEq α]
    (view : List Record) (col : Record → α) :
    ((valueCounts (view.map col)).map Prod.snd).sum = view.length ∧
      ∀ p ∈ valueCounts (view.map col), p.1 ∈ view.map col := by
  constructor
  · unfold valueCounts
    rw [List.map_map]
    have h : (Prod.snd ∘ fun v => (v, (view.map col).count v)) =
        fun v => (view.map col).count v := rfl
    rw [h, List.sum_map_count_dedup_eq_length, List.length_map]
  · intro p hp
    unfold valueCounts at hp
    rcases List.mem_map.mp hp with ⟨v, hv, rfl⟩
    exact List.mem_dedup.mp hv

/-- Witness for C5 on the concrete two-record view and the Gender column. -/
theorem claim_C5_value_counts_witness :
    ((valueCounts (dfCollide.map Record.gender)).map Prod.snd).sum = dfCollide.length ∧
      ("All" : String) ∈ dfCollide.map Record.gender :=
  ⟨(claim_C5_value_counts dfCollide Record.gender).1,
   (claim_C5_value_counts dfCollide Record.gender).2 ("All", 1) (by decide)⟩

/-- Counterexample to C3 as stated.  C3 asserts that for a view with fewer
than 2 records the correlation matrix holds a marker "distinct from any
numeric value such as 0 or NaN".  On the one-record view `[rAll]` the code
(pandas `corr`, src/app.py line 53) yields exactly the float NaN — the very
value the claim says the marker must differ from; `CorrVal.nan` is the
embedding of that NaN. -/
theorem claim_C3_counterexample :
    corrMatrix [rAll] [ageColumn] = [[CorrVal.nan]] := by
  decide

/-- C3 as amended.  For a view with fewer than 2 records, or a pair
involving a zero-variance (constant) column, the correlation entry is the
non-numeric float NaN — represented as data, not thrown, and distinct from
every defined numeric cell, but it is NaN itself rather than a marker
distinct from NaN. -/
theorem claim_C3_undefined_is_nan {ρ : Type} (rows : List ρ) (a b : ρ → ℚ) (q : ℚ) :
    (rows.length < 2 → corrEntry (rows.map a) (rows.map b) = CorrVal.nan) ∧
      ((∀ r ∈ rows, a r = q) → corrEntry (rows.map a) (rows.map b) = CorrVal.nan) ∧
      (∀ u v w : ℚ, CorrVal.nan ≠ CorrVal.val u v w) := by
  refine ⟨?_, ?_, ?_⟩
  · intro h
    exact corrEntry_nan_of _ _ (Or.inl (by rw [List.length_map]; exact h))
  · intro h
    refine corrEntry_nan_of _ _ (Or.inr (Or.inr (Or.inl ?_)))
    refine sxx_const _ q (fun x hx => ?_)
    rcases List.mem_map.mp hx with ⟨r, hr, rfl⟩
    exact h r hr
  · intro u v w hc
    exact CorrVal.noConfusion hc

/-- Witness for the amended C3 on the one-record view. -/
theorem claim_C3_undefined_is_nan_witness :
    [rAll].length < 2 ∧
      corrEntry ([rAll].map ageColumn) ([rAll].map ageColumn) = CorrVal.nan :=
  ⟨by decide, (claim_C3_undefined_is_nan [rAll] ageColumn ageColumn 0).1 (by decide)⟩

/-- Counterexample to C7 as stated.  C7 asserts that the coefficient of two
columns with identical value sequences is 1, with no proviso.  On the
two-record view with a constant Age column the sequences are identical yet
the entry is NaN, not 1. -/
theorem claim_C7_counterexample :
    (corrEntry ([rAll, rAll].map ageColumn) ([rAll, rAll].map ageColumn)).real ≠
      some 1 := by
  have hz : sxx ([rAll, rAll].map ageColumn) = 0 := by
    norm_num [sxx, sxy, dot, ageColumn, rAll]
  rw [corrEntry_nan_of _ _ (Or.inr (Or.inr (Or.inl hz)))]
  simp [CorrVal.real]

/-- C7 as amended.  The correlation matrix of src/app.py line 53 is
symmetric (the coefficient of (a, b) equals that of (b, a)); a diagonal
entry is 1 when the view has at least 2 records and the column has nonzero
variance, and the NaN marker when the variance is zero; and two columns with
identical value sequences have coefficient 1 provided the view has at least
2 records and the shared sequence has nonzero variance. -/
theorem claim_C7_corr_properties {ρ : Type} (rows : List ρ) (a b : ρ → ℚ) :
    ((corrEntry (rows.map a) (rows.map b)).real =
        (corrEntry (rows.map b) (rows.map a)).real) ∧
      (2 ≤ rows.length → sxx (rows.map a) ≠ 0 →
        (corrEntry (rows.map a) (rows.map a)).real = some 1) ∧
      (sxx (rows.map a) = 0 → corrEntry (rows.map a) (rows.map a) = CorrVal.nan) ∧
      (rows.map a = rows.map b → 2 ≤ rows.length → sxx (rows.map a) ≠ 0 →
        (corrEntry (rows.map a) (rows.map b)).real = some 1) := by
  refine ⟨?_, ?_, ?_, ?_⟩
  · exact corrEntry_symm_real _ _ (by rw [List.length_map, List.length_map])
  · intro h2 hv
    exact corrEntry_self_real _ (by rw [List.length_map]; exact h2) hv
  · intro hv
    exact corrEntry_nan_of _ _ (Or.inr (Or.inr (Or.inl hv)))
  · intro hab h2 hv
    rw [← hab]
    exact corrEntry_self_real _ (by rw [List.length_map]; exact h2) hv

/-- Witness for the amended C7: a two-record view whose Age column has
nonzero variance has diagonal coefficient 1. -/
theorem claim_C7_corr_properties_witness :
    (2 ≤ [rMale, r40].length ∧ sxx ([rMale, r40].map ageColumn) ≠ 0) ∧
      (corrEntry ([rMale, r40].map ageColumn) ([rMale, r40].map ageColumn)).real =
        some 1 :=
  ⟨⟨by decide, by norm_num [sxx, sxy, dot, ageColumn, rMale, r40]⟩,
   (claim_C7_corr_properties [rMale, r40] ageColumn ageColumn).2.1
     (by decide) (by norm_num [sxx, sxy, dot, ageColumn, rMale, r40])⟩

/-- Counterexample to C4 as stated.  C4 asserts every aggregation returns an
empty structure on a zero-record view; pandas `corr` (src/app.py line 53)
instead returns the full column-pair matrix with every entry NaN, which is
not empty. -/
theorem claim_C4_counterexample :
    corrMatrix ([] : List Record) [ageColumn] = [[CorrVal.nan]] ∧
      ([[CorrVal.nan]] : List (List CorrVal)) ≠ [] := by
  decide

/-- C4 as amended.  On a zero-record filtered view every aggregation is
total (none raises in the embedding): the value counts, grouped value
counts, grouped statistics and histogram bins are all empty, while the
correlation matrix is the full matrix over the numeric columns with every
entry the NaN marker. -/
theorem claim_C4_empty_view {α β ρ : Type} [DecidableEq α] [DecidableEq β]
    (n : Nat) (cols : List (ρ → ℚ)) :
    valueCounts ([] : List α) = [] ∧
      groupedValueCounts ([] : List (α × β)) = [] ∧
      groupedStats ([] : List (α × ℚ)) = [] ∧
      histogramBins [] n = [] ∧
      corrMatrix ([] : List ρ) cols =
        cols.map (fun _ => cols.map (fun _ => CorrVal.nan)) :=
  ⟨rfl, rfl, rfl, rfl, rfl⟩

lemma requireCols_ok (schema req : List String) (h : ∀ c ∈ req, c ∈ schema) :
    requireCols schema req = Except.ok () := by
  have hnone : req.find? (fun c => !(schema.contains c)) = none := by
    apply List.find?_eq_none.mpr
    intro c hc
    simp [h c hc]
  unfold requireCols
  rw [hnone]

lemma mapM_views_ok (schema : List String) (l : List (List String))
    (h : ∀ req ∈ l, requireCols schema req = Except.ok ()) :
    (l.mapM (fun req => do
        requireCols schema req
        pure (ViewOutcome.chart req)) : Except String (List ViewOutcome)) =
      Except.ok (l.map ViewOutcome.chart) := by
  induction l with
  | nil => rfl
  | cons a t ih =>
      have ha := h a (List.mem_cons_self a t)
      have ht := ih (fun req hr => h req (List.mem_cons_of_mem a hr))
      rw [List.mapM_cons, ha, ht]
      rfl

/-- Counterexample to C8 as stated.  C8 quantifies over every dataset whose
schema lacks a column required by some view and asserts the catalog pass
skips just that view and never aborts.  Only view 20 is guarded in
src/app.py (line 136): with a schema lacking `Gender` (required by view 4,
line 62) but containing every other column including OverTime, the pass
aborts with the missing-column error instead of skipping view 4. -/
theorem claim_C8_counterexample :
    runCatalog (fullSchema.erase "Gender") = Except.error "Gender" ∧
      "OverTime" ∈ fullSchema.erase "Gender" := by
  exact ⟨rfl, by decide⟩

/-- C8 as amended.  For every dataset schema that contains the columns
required by views 1-19 but lacks OverTime, the catalog pass of src/app.py
lines 40-140 produces all 19 charts, replaces view 20 alone with the
missing-column warning of line 140, and does not abort; only the OverTime
column is special-cased this way. -/
theorem claim_C8_overtime_guard (schema : List String)
    (hcore : ∀ req ∈ viewRequires, ∀ c ∈ req, c ∈ schema)
    (hov : "OverTime" ∉ schema) :
    runCatalog schema =
      Except.ok (viewRequires.map ViewOutcome.chart ++
        [ViewOutcome.warn "OverTime column not found in dataset."]) := by
  unfold runCatalog
  rw [mapM_views_ok schema viewRequires
      (fun req hr => requireCols_ok schema req (hcore req hr))]
  simp [hov]

/-- Witness for the amended C8: the full schema with OverTime removed. -/
theorem claim_C8_overtime_guard_witness :
    ((∀ req ∈ viewRequires, ∀ c ∈ req, c ∈ fullSchema.erase "OverTime") ∧
        "OverTime" ∉ fullSchema.erase "OverTime") ∧
      runCatalog (fullSchema.erase "OverTime") =
        Except.ok (viewRequires.map ViewOutcome.chart ++
          [ViewOutcome.warn "OverTime column not found in dataset."]) :=
  ⟨⟨by decide, by decide⟩,
   claim_C8_overtime_guard (fullSchema.erase "OverTime") (by decide) (by decide)⟩

lemma listMinQ_le (xs : List ℚ) (v : ℚ) (hv : v ∈ xs) : listMinQ xs ≤ v := by
  cases xs with
  | nil => cases hv
  | cons x rest =>
      rcases List.mem_cons.mp hv with h | h
      · subst h
        exact foldl_min_le_self _ _
      · exact foldl_min_le_mem _ _ _ h

lemma le_listMaxQ (xs : List ℚ) (v : ℚ) (hv : v ∈ xs) : v ≤ listMaxQ xs := by
  cases xs with
  | nil => cases hv
  | cons x rest =>
      rcases List.mem_cons.mp hv with h | h
      · subst h
        exact le_foldl_max_self _ _
      · exact le_foldl_max_mem _ _ _ h

lemma binWidth_pos (xs : List ℚ) (n : Nat) (hn : 0 < n)
    (hlt : listMinQ xs < listMaxQ xs) : 0 < binWidth xs n := by
  unfold binWidth
  have hc : (0 : ℚ) < (n : ℚ) := by exact_mod_cast hn
  exact div_pos (sub_pos.mpr hlt) hc

lemma lo_add_width (xs : List ℚ) (n : Nat) (hn : 0 < n) :
    listMinQ xs + (n : ℚ) * binWidth xs n = listMaxQ xs := by
  unfold binWidth
  have hc : ((n : ℚ)) ≠ 0 := by
    have : (0 : ℚ) < (n : ℚ) := by exact_mod_cast hn
    exact this.ne'
  field_simp

lemma binIndex_lt (lo w : ℚ) (n : Nat) (hn : 0 < n) (x : ℚ) :
    binIndex lo w n x < n := by
  unfold binIndex
  omega

lemma binIndex_eq_iff (lo w : ℚ) (n : Nat) (hn : 0 < n) (hw : 0 < w) (v : ℚ)
    (hv1 : lo ≤ v) (hv2 : v ≤ lo + (n : ℚ) * w) (i : Nat) (hi2 : i < n) :
    (binIndex lo w n v = i ↔
      (if i + 1 < n
        then lo + (i : ℚ) * w ≤ v ∧ v < lo + ((i : ℚ) + 1) * w
        else lo + (i : ℚ) * w ≤ v ∧ v ≤ lo + ((i : ℚ) + 1) * w)) := by
  have ht0 : 0 ≤ (v - lo) / w := div_nonneg (by linarith) hw.le
  have hfl0 : 0 ≤ ⌊(v - lo) / w⌋ := Int.floor_nonneg.mpr ht0
  unfold binIndex
  by_cases hlast : i + 1 < n
  · rw [if_pos hlast]
    constructor
    · intro h
      have hfi : ⌊(v - lo) / w⌋ = (i : ℤ) := by omega
      rcases (Int.floor_eq_iff.mp hfi) with ⟨h1, h2⟩
      have h1q : (i : ℚ) ≤ (v - lo) / w := by exact_mod_cast h1
      have h2q : (v - lo) / w < (i : ℚ) + 1 := by exact_mod_cast h2
      rw [le_div_iff hw] at h1q
      rw [div_lt_iff hw] at h2q
      exact ⟨by linarith, by linarith⟩
    · rintro ⟨h1, h2⟩
      have h1q : (i : ℚ) ≤ (v - lo) / w := by
        rw [le_div_iff hw]
        linarith
      have h2q : (v - lo) / w < (i : ℚ) + 1 := by
        rw [div_lt_iff hw]
        linarith
      have hfi : ⌊(v - lo) / w⌋ = (i : ℤ) := by
        apply Int.floor_eq_iff.mpr
        constructor
        · exact_mod_cast h1q
        · exact_mod_cast h2q
      omega
  · rw [if_neg hlast]
    have hin : i + 1 = n := by omega
    constructor
    · intro h
      have hge : (i : ℤ) ≤ ⌊(v - lo) / w⌋ := by omega
      have hgq : ((i : ℤ) : ℚ) ≤ (v - lo) / w := Int.le_floor.mp hge
      have h1q : (i : ℚ) ≤ (v - lo) / w := by exact_mod_cast hgq
      rw [le_div_iff hw] at h1q
      refine ⟨by linarith, ?_⟩
      have hcast : ((i : ℚ) + 1) = (n : ℚ) := by
        push_cast [← hin]
        ring
      rw [hcast]
      exact hv2
    · rintro ⟨h1, _⟩
      have h1q : (i : ℚ) ≤ (v - lo) / w := by
        rw [le_div_iff hw]
        linarith
      have hfl : (i : ℤ) ≤ ⌊(v - lo) / w⌋ := Int.le_floor.mpr (by exact_mod_cast h1q)
      omega

lemma sum_map_add_nat {β : Type} (l : List β) (f g : β → Nat) :
    (l.map (fun b => f b + g b)).sum = (l.map f).sum + (l.map g).sum := by
  induction l with
  | nil => rfl
  | cons a t ih =>
      simp only [List.map_cons, List.sum_cons, ih]
      omega

lemma sum_indicator (n k : Nat) (h : k < n) :
    ((List.range n).map (fun i => if k = i then (1 : Nat) else 0)).sum = 1 := by
  induction n with
  | zero => omega
  | succ m ih =>
      rw [List.range_succ, List.map_append, List.sum_append]
      by_cases hk : k = m
      · subst hk
        have hz : ((List.range k).map (fun i => if k = i then (1 : Nat) else 0)).sum = 0 := by
          apply List.sum_eq_zero
          intro x hx
          rcases List.mem_map.mp hx with ⟨i, hi, rfl⟩
          have hne : k ≠ i := by
            have := List.mem_range.mp hi
            omega
          simp [hne]
        simp [hz]
      · have hkm : k < m := by omega
        simp [ih hkm, hk]

lemma sum_filter_classify (f : ℚ → Nat) (xs : List ℚ) (n : Nat)
    (h : ∀ v ∈ xs, f v < n) :
    ((List.range n).map (fun i => (xs.filter (fun v => f v == i)).length)).sum
      = xs.length := by
  induction xs with
  | nil => simp
  | cons a t ih =>
      have ha : f a < n := h a (List.mem_cons_self a t)
      have ht := ih (fun v hv => h v (List.mem_cons_of_mem a hv))
      have hsplit : ∀ i : Nat, ((a :: t).filter (fun v => f v == i)).length =
          (if f a = i then 1 else 0) + (t.filter (fun v => f v == i)).length := by
        intro i
        by_cases hfa : f a = i
        · simp [List.filter_cons, hfa]
          omega
        · simp [List.filter_cons, hfa]
      simp only [hsplit]
      rw [sum_map_add_nat, sum_indicator n (f a) ha, ht, List.length_cons]
      omega

lemma getD_map_range {γ : Type} (n i : Nat) (hi2 : i < n) (f : Nat → γ) (d : γ) :
    (((List.range n).map f).getD i d) = f i := by
  rw [List.getD_eq_getElem?_getD, List.getElem?_map, List.getElem?_range hi2]
  rfl

lemma bool_eq_of_iff {a b : Bool} (h : a = true ↔ b = true) : a = b := by
  cases a <;> cases b <;> simp_all

lemma histogram_filter_eq (xs : List ℚ) (n : Nat) (hn : 0 < n)
    (hlt : listMinQ xs < listMaxQ xs) (i : Nat) (hi2 : i < n) :
    xs.filter (fun v => binIndex (listMinQ xs) (binWidth xs n) n v == i) =
      (if i + 1 < n then
        xs.filter (fun v =>
          decide (listMinQ xs + (i : ℚ) * binWidth xs n ≤ v) &&
          decide (v < listMinQ xs + ((i : ℚ) + 1) * binWidth xs n))
      else
        xs.filter (fun v =>
          decide (listMinQ xs + (i : ℚ) * binWidth xs n ≤ v) &&
          decide (v ≤ listMinQ xs + ((i : ℚ) + 1) * binWidth xs n))) := by
  have hw := binWidth_pos xs n hn hlt
  by_cases hlast : i + 1 < n
  · rw [if_pos hlast]
    apply List.filter_congr
    intro v hv
    have hiff := binIndex_eq_iff (listMinQ xs) (binWidth xs n) n hn hw v
      (listMinQ_le xs v hv)
      (by rw [lo_add_width xs n hn]; exact le_listMaxQ xs v hv) i hi2
    rw [if_pos hlast] at hiff
    apply bool_eq_of_iff
    constructor
    · intro hbt
      have hb : binIndex (listMinQ xs) (binWidth xs n) n v = i := by simpa using hbt
      have hP := hiff.mp hb
      simp [hP.1, hP.2]
    · intro hbt
      have hP : listMinQ xs + (i : ℚ) * binWidth xs n ≤ v ∧
          v < listMinQ xs + ((i : ℚ) + 1) * binWidth xs n := by simpa using hbt
      simpa using hiff.mpr hP
  · rw [if_neg hlast]
    apply List.filter_congr
    intro v hv
    have hiff := binIndex_eq_iff (listMinQ xs) (binWidth xs n) n hn hw v
      (listMinQ_le xs v hv)
      (by rw [lo_add_width xs n hn]; exact le_listMaxQ xs v hv) i hi2
    rw [if_neg hlast] at hiff
    apply bool_eq_of_iff
    constructor
    · intro hbt
      have hb : binIndex (listMinQ xs) (binWidth xs n) n v = i := by simpa using hbt
      have hP := hiff.mp hb
      simp [hP.1, hP.2]
    · intro hbt
      have hP : listMinQ xs + (i : ℚ) * binWidth xs n ≤ v ∧
          v ≤ listMinQ xs + ((i : ℚ) + 1) * binWidth xs n := by simpa using hbt
      simpa using hiff.mpr hP

/-- C6 (modelled from the spec, §4.3 `histogramBins`; the binning code
behind src/app.py line 70 lives in the plotting library, not in this
repository).  For a non-empty view and a positive bin count: when the
observed range is non-degenerate, the histogram has exactly `binCount`
bins; bin i spans [min + i·w, min + (i+1)·w] with the common width
w = (max − min)/binCount — so the bins are contiguous, non-overlapping and
in ascending order — and counts the values lying in it, right-edge
exclusive for every bin except the last, which is right-inclusive; when all
values are identical a single bin covering that value holds every count;
and in every case the bin counts sum to the number of values of the column
in the view. -/
theorem claim_C6_histogram_bins (xs : List ℚ) (hne : xs ≠ []) (n : Nat) (hn : 0 < n) :
    (listMinQ xs < listMaxQ xs →
      (histogramBins xs n).length = n ∧
      (∀ i : Nat, i < n →
        (histogramBins xs n).getD i (0, 0, 0) =
          (listMinQ xs + (i : ℚ) * binWidth xs n,
           listMinQ xs + ((i : ℚ) + 1) * binWidth xs n,
           if i + 1 < n then
             (xs.filter (fun v =>
               decide (listMinQ xs + (i : ℚ) * binWidth xs n ≤ v) &&
               decide (v < listMinQ xs + ((i : ℚ) + 1) * binWidth xs n))).length
           else
             (xs.filter (fun v =>
               decide (listMinQ xs + (i : ℚ) * binWidth xs n ≤ v) &&
               decide (v ≤ listMinQ xs + ((i : ℚ) + 1) * binWidth xs n))).length))) ∧
    (listMinQ xs = listMaxQ xs →
      histogramBins xs n = [(listMinQ xs, listMaxQ xs, xs.length)]) ∧
    ((histogramBins xs n).map (fun b => b.2.2)).sum = xs.length := by
  refine ⟨?_, ?_, ?_⟩
  · intro hlt
    constructor
    · unfold histogramBins
      rw [if_neg hne, if_neg hlt.ne]
      rw [List.length_map, List.length_range]
    · intro i hi2
      unfold histogramBins
      rw [if_neg hne, if_neg hlt.ne]
      rw [getD_map_range n i hi2]
      rw [histogram_filter_eq xs n hn hlt i hi2, apply_ite List.length]
  · intro heq
    unfold histogramBins
    rw [if_neg hne, if_pos heq]
  · by_cases heq : listMinQ xs = listMaxQ xs
    · unfold histogramBins
      rw [if_neg hne, if_pos heq]
      simp
    · unfold histogramBins
      rw [if_neg hne, if_neg heq]
      rw [List.map_map]
      exact sum_filter_classify
        (fun v => binIndex (listMinQ xs) (binWidth xs n) n v) xs n
        (fun v _ => binIndex_lt _ _ n hn v)

/-- Witness for C6 on the spec scenario: values [1, 2, 3, 4] with 2 bins. -/
theorem claim_C6_histogram_bins_witness :
    (([(1 : ℚ), 2, 3, 4] ≠ ([] : List ℚ)) ∧ 0 < 2) ∧
      ((histogramBins [(1 : ℚ), 2, 3, 4] 2).map (fun b => b.2.2)).sum =
        [(1 : ℚ), 2, 3, 4].length :=
  ⟨⟨by decide, by decide⟩,
   (claim_C6_histogram_bins [(1 : ℚ), 2, 3, 4] (by decide) 2 (by decide)).2.2⟩
